import Mathlib

/-!
Shallow embedding of the relayer-engine core: the metrics middleware
(`src/relayer/middleware/metrics.middleware.ts`) and the action-executor
contract (`src/unnamed/part_000`, interface only).

The middleware is an async handler `(ctx, next) => ...`.  We embed one
invocation of that handler as a pure function from the invocation's
environment — the outcome of `next()`, the outcome of the label customizer,
the job's attempt counters, whether a logger is attached, and the elapsed
wall-clock time — to the handler's own outcome paired with the ordered list
of observable side effects (counter increments, histogram observations, log
calls) it performs, in the order the source performs them.
-/

namespace RelayerEngine

/-- A JavaScript runtime value usable as a metric-label value.  The TS type
`MetricRecord = Record<string, string | number>` allows strings and numbers;
we also include `bool` and `null` to model what a dynamically-typed
customizer can actually return, since the source guards with JS truthiness
(`if (labels[key])`). -/
inductive MetricValue where
  | str (s : String)
  | num (n : Int)
  | bool (b : Bool)
  | null
deriving DecidableEq, Repr

/-- A JS object of label values, as an association list (keys unique in any
object a JS program builds; lookup takes the first binding). -/
abbrev MetricRecord := List (String × MetricValue)

/-- JS truthiness for a `MetricValue`: `0`, `""`, `false` and `null` are
falsy, everything else truthy. -/
def truthy : MetricValue → Bool
  | .str s => decide (s ≠ "")
  | .num n => decide (n ≠ 0)
  | .bool b => b
  | .null => false

/-- `r[k]` in JS: the first binding of `k` in the object, if any. -/
def rlookup (r : MetricRecord) (k : String) : Option MetricValue :=
  (r.find? fun kv => decide (kv.1 = k)).map Prod.snd

/-- JS object spread `{ ...a, ...b }` up to key/value semantics: every key
of `b` has `b`'s value, every other key of `a` keeps `a`'s value. -/
def mergeRecords (a b : MetricRecord) : MetricRecord :=
  (a.filter fun kv => (rlookup b kv.1).isNone) ++ b

/-- The `allowedKeys.forEach` loop of `getLabels`
(`metrics.middleware.ts:39-44`): for each allow-listed key, copy the
customizer's binding iff it is present and truthy. -/
def validateLabels (allowedKeys : List String) (labels : MetricRecord) :
    MetricRecord :=
  allowedKeys.filterMap fun k =>
    match rlookup labels k with
    | some v => if truthy v then some (k, v) else none
    | none => none

/-- An opaque JS error value; the tag just distinguishes errors. -/
inductive JSError where
  | tag (n : Nat)
deriving DecidableEq, Repr

/-- The engine-derived status string. -/
def statusStr (failed : Bool) : String := if failed then "failed" else "succeeded"

/-- `const defaultLabels = { status: failed ? "failed" : "succeeded" }`. -/
def defaultLabels (failed : Bool) : MetricRecord :=
  [("status", MetricValue.str (statusStr failed))]

/-- The `labels` part of `MetricsOpts`: the configured allow-list.  The
customizer itself is a function of the context; its outcome on this
invocation is passed separately (`MWInput.custResult`). -/
structure LabelCfg where
  labelNames : List String
deriving DecidableEq, Repr

/-- `MetricsOpts`: only the `labels` option affects label computation; the
registry and bucket options configure the prom-client objects and play no
role in the handler's control flow. -/
structure MetricsConfig where
  labels : Option LabelCfg
deriving DecidableEq, Repr

/-- `ctx.storage.job`'s attempt counters; each may be `undefined` in JS. -/
structure Job where
  attempts : Option Int
  maxAttempts : Option Int
deriving DecidableEq, Repr

/-- The per-invocation environment of the middleware handler:
what `next()` does, what the customizer promise does, the job metadata,
whether `ctx.logger` is attached, and the measured elapsed time. -/
structure MWInput where
  nextOutcome : Except JSError Unit
  custResult : Except JSError MetricRecord
  job : Option Job
  hasLogger : Bool
  elapsed : Int

/-- Observable side effects of one handler invocation, in program order. -/
inductive Event where
  | processedInc
  | nextCall
  | logError
  | observe (labels : MetricRecord) (time : Int)
  | finishedInc (labels : MetricRecord)
deriving DecidableEq, Repr

/-- `opts.labels?.labelNames ?? []`. -/
def allowedOf (cfg : MetricsConfig) : List String :=
  match cfg.labels with
  | some lc => lc.labelNames
  | none => []

/-- `await (opts.labels?.customizer(ctx) ?? Promise.resolve({}))`: when no
label options are configured the customizer is never invoked and the awaited
value is the empty object; otherwise it is whatever the customizer's promise
did. -/
def customizerOutcome (cfg : MetricsConfig)
    (custResult : Except JSError MetricRecord) : Except JSError MetricRecord :=
  match cfg.labels with
  | none => Except.ok []
  | some _ => custResult

/-- `getLabels(ctx, opts, failed)` (`metrics.middleware.ts:27-55`): returns
the computed labels together with the log events it emits.  The `try` block
computes `{ ...validatedLabels, ...defaultLabels }`; the `catch` block logs
via `ctx.logger?.error` (only when a logger is attached) and returns the
default labels. -/
def getLabels (cfg : MetricsConfig) (custResult : Except JSError MetricRecord)
    (hasLogger : Bool) (failed : Bool) : MetricRecord × List Event :=
  match customizerOutcome cfg custResult with
  | Except.ok labels =>
      (mergeRecords (validateLabels (allowedOf cfg) labels)
        (defaultLabels failed), [])
  | Except.error _ =>
      (defaultLabels failed, if hasLogger then [Event.logError] else [])

/-- `(ctx.storage.job?.attempts ?? 0) === (ctx.storage.job?.maxAttempts ?? -1)`
(`metrics.middleware.ts:103-105`). -/
def reachedMaxAttempts (job : Option Job) : Bool :=
  decide ((job.bind Job.attempts).getD 0 = (job.bind Job.maxAttempts).getD (-1))

/-- Whether the downstream outcome counts as a failure
(`failure !== null`). -/
def failedOf : Except JSError Unit → Bool
  | Except.ok _ => false
  | Except.error _ => true

/-- One invocation of the handler returned by `metrics(opts)`
(`metrics.middleware.ts:86-114`): increment the processed counter, run
`next()`, compute labels, observe the duration histogram, then increment the
finished counter — with a stringified `terminal` label merged in on the
failure path — and finally return `next()`'s own outcome (re-raising its
failure unchanged). -/
def metricsHandler (cfg : MetricsConfig) (inp : MWInput) :
    Except JSError Unit × List Event :=
  let gl := getLabels cfg inp.custResult inp.hasLogger (failedOf inp.nextOutcome)
  let preEvents := Event.processedInc :: Event.nextCall ::
    (gl.2 ++ [Event.observe gl.1 inp.elapsed])
  match inp.nextOutcome with
  | Except.error e =>
      (Except.error e,
        preEvents ++ [Event.finishedInc (mergeRecords gl.1
          [("terminal", MetricValue.str (toString (reachedMaxAttempts inp.job)))])])
  | Except.ok _ =>
      (Except.ok (), preEvents ++ [Event.finishedInc gl.1])

/-- The label records of the histogram observations in an event list. -/
def observeLabels (evs : List Event) : List MetricRecord :=
  evs.filterMap fun e =>
    match e with
    | Event.observe l _ => some l
    | _ => none

/-- The label records of the finished-counter increments in an event list. -/
def finishedLabels (evs : List Event) : List MetricRecord :=
  evs.filterMap fun e =>
    match e with
    | Event.finishedInc l => some l
    | _ => none

/-- Modelled from the spec: the `ActionExecutor` implementation is not under
`src/` — `src/unnamed/part_000` declares only its interface.  An action is a
target chain id plus a function of a wallet toolbox and that chain id
(`Action<T, W>` with `f: (walletToolBox, chainId) => Promise<T>`); `W` is
the toolbox type and `E` the error type of the action function. -/
structure Action (T W E : Type) where
  chainId : Nat
  f : W → Nat → Except E T

/-- Modelled from the spec: executor failures are either a toolbox
"resolution" error — "distinct from the action function's own failures" —
or the action function's own error, carried unchanged. -/
inductive ExecError (E : Type) where
  | resolution (chainId : Nat)
  | action (e : E)
deriving DecidableEq, Repr

/-- Modelled from the spec: `execute(action)` resolves the `WalletToolBox`
for `action.chainId` (failing with a resolution error when none is
available, without invoking the action), otherwise invokes
`action.f(toolBox, action.chainId)` exactly once and propagates its result
or failure unchanged, with no retry. -/
def execute {T W E : Type} (resolveToolBox : Nat → Option W)
    (act : Action T W E) : Except (ExecError E) T :=
  match resolveToolBox act.chainId with
  | none => Except.error (ExecError.resolution act.chainId)
  | some tb => (act.f tb act.chainId).mapError ExecError.action

/-! ### Lookup lemmas for the record operations -/

theorem rlookup_nil (k : String) : rlookup [] k = none := rfl

theorem rlookup_cons (k' : String) (v : MetricValue) (r : MetricRecord)
    (k : String) :
    rlookup ((k', v) :: r) k = if k' = k then some v else rlookup r k := by
  by_cases h : k' = k <;> simp [rlookup, List.find?_cons, h]

theorem rlookup_default_status (failed : Bool) :
    rlookup (defaultLabels failed) "status"
      = some (MetricValue.str (statusStr failed)) := rfl

theorem rlookup_default_of_ne (failed : Bool) (k : String) (h : k ≠ "status") :
    rlookup (defaultLabels failed) k = none := by
  have h' : "status" ≠ k := fun he => h he.symm
  simp [defaultLabels, rlookup_cons, h', rlookup_nil]

theorem rlookup_append (l1 l2 : MetricRecord) (k : String) :
    rlookup (l1 ++ l2) k
      = match rlookup l1 k with
        | some v => some v
        | none => rlookup l2 k := by
  induction l1 with
  | nil => simp [rlookup_nil]
  | cons kv t ih =>
      obtain ⟨k', v'⟩ := kv
      by_cases hk : k' = k <;>
        simp [List.cons_append, rlookup_cons, hk, ih]

theorem rlookup_filter_of_pred_false (l : MetricRecord)
    (p : String × MetricValue → Bool) (k : String)
    (h : ∀ v, p (k, v) = false) :
    rlookup (l.filter p) k = none := by
  induction l with
  | nil => rfl
  | cons kv t ih =>
      obtain ⟨k', v'⟩ := kv
      rw [List.filter_cons]
      by_cases hk : k' = k
      · have hp : p (k', v') = false := by rw [hk]; exact h v'
        simp [hp, ih]
      · cases hpv : p (k', v') <;> simp [hpv, rlookup_cons, hk, ih]

theorem rlookup_filter_of_pred_true (l : MetricRecord)
    (p : String × MetricValue → Bool) (k : String)
    (h : ∀ v, p (k, v) = true) :
    rlookup (l.filter p) k = rlookup l k := by
  induction l with
  | nil => rfl
  | cons kv t ih =>
      obtain ⟨k', v'⟩ := kv
      rw [List.filter_cons]
      by_cases hk : k' = k
      · have hp : p (k', v') = true := by rw [hk]; exact h v'
        simp [hp, h v', rlookup_cons, hk]
      · cases hpv : p (k', v') <;> simp [hpv, rlookup_cons, hk, ih]

theorem rlookup_merge (a b : MetricRecord) (k : String) :
    rlookup (mergeRecords a b) k
      = match rlookup b k with
        | some v => some v
        | none => rlookup a k := by
  cases hb : rlookup b k with
  | some w =>
      have hfil : rlookup (a.filter fun kv => (rlookup b kv.1).isNone) k
          = none := by
        apply rlookup_filter_of_pred_false
        intro v
        simp [hb]
      simp only [mergeRecords, rlookup_append, hfil]
      exact hb
  | none =>
      have hfil : rlookup (a.filter fun kv => (rlookup b kv.1).isNone) k
          = rlookup a k := by
        apply rlookup_filter_of_pred_true
        intro v
        simp [hb]
      simp only [mergeRecords, rlookup_append, hfil]
      cases ha : rlookup a k <;> simp [hb]

theorem rlookup_merge_of_some (a b : MetricRecord) (k : String)
    (v : MetricValue) (h : rlookup b k = some v) :
    rlookup (mergeRecords a b) k = some v := by
  rw [rlookup_merge, h]

theorem rlookup_merge_of_none (a b : MetricRecord) (k : String)
    (h : rlookup b k = none) :
    rlookup (mergeRecords a b) k = rlookup a k := by
  rw [rlookup_merge, h]

theorem rlookup_validate (allowed : List String) (r : MetricRecord)
    (k : String) :
    rlookup (validateLabels allowed r) k
      = if k ∈ allowed then
          match rlookup r k with
          | some v => if truthy v then some v else none
          | none => none
        else none := by
  induction allowed with
  | nil => simp [validateLabels, rlookup_nil]
  | cons a t ih =>
      simp only [validateLabels, List.filterMap_cons] at ih ⊢
      by_cases hak : a = k
      · subst hak
        cases hra : rlookup r a with
        | none => simp [hra, ih, List.mem_cons]
        | some v =>
            cases htv : truthy v <;>
              simp [hra, htv, ih, rlookup_cons, List.mem_cons]
      · have hka : ¬(k = a) := fun he => hak he.symm
        cases hra : rlookup r a with
        | none => simp [hra, ih, hka, List.mem_cons]
        | some v =>
            cases htv : truthy v <;>
              simp [hra, htv, ih, rlookup_cons, hak, hka, List.mem_cons]

theorem rlookup_validate_of_not_mem (allowed : List String) (r : MetricRecord)
    (k : String) (h : k ∉ allowed) :
    rlookup (validateLabels allowed r) k = none := by
  rw [rlookup_validate]
  simp [h]

theorem rlookup_validate_of_falsy (allowed : List String) (r : MetricRecord)
    (k : String) (v : MetricValue) (hv : rlookup r k = some v)
    (ht : truthy v = false) :
    rlookup (validateLabels allowed r) k = none := by
  rw [rlookup_validate, hv]
  simp [ht]

/-! ### Shape lemmas for `getLabels` and `metricsHandler` -/

theorem getLabels_eq_ok (cfg : MetricsConfig)
    (custRes : Except JSError MetricRecord) (hl failed : Bool)
    (labels : MetricRecord)
    (h : customizerOutcome cfg custRes = Except.ok labels) :
    getLabels cfg custRes hl failed
      = (mergeRecords (validateLabels (allowedOf cfg) labels)
          (defaultLabels failed), []) := by
  unfold getLabels
  rw [h]

theorem getLabels_eq_error (cfg : MetricsConfig)
    (custRes : Except JSError MetricRecord) (hl failed : Bool) (e : JSError)
    (h : customizerOutcome cfg custRes = Except.error e) :
    getLabels cfg custRes hl failed
      = (defaultLabels failed, if hl then [Event.logError] else []) := by
  unfold getLabels
  rw [h]

theorem getLabels_fst_ok (cfg : MetricsConfig)
    (custRes : Except JSError MetricRecord) (hl failed : Bool)
    (labels : MetricRecord)
    (h : customizerOutcome cfg custRes = Except.ok labels) :
    (getLabels cfg custRes hl failed).1
      = mergeRecords (validateLabels (allowedOf cfg) labels)
          (defaultLabels failed) := by
  rw [getLabels_eq_ok cfg custRes hl failed labels h]

theorem getLabels_fst_error (cfg : MetricsConfig)
    (custRes : Except JSError MetricRecord) (hl failed : Bool) (e : JSError)
    (h : customizerOutcome cfg custRes = Except.error e) :
    (getLabels cfg custRes hl failed).1 = defaultLabels failed := by
  rw [getLabels_eq_error cfg custRes hl failed e h]

theorem getLabels_status (cfg : MetricsConfig)
    (custRes : Except JSError MetricRecord) (hl failed : Bool) :
    rlookup (getLabels cfg custRes hl failed).1 "status"
      = some (MetricValue.str (statusStr failed)) := by
  cases hco : customizerOutcome cfg custRes with
  | ok labels =>
      rw [getLabels_eq_ok cfg custRes hl failed labels hco]
      exact rlookup_merge_of_some _ _ _ _ (rlookup_default_status failed)
  | error e =>
      rw [getLabels_eq_error cfg custRes hl failed e hco]
      exact rlookup_default_status failed

theorem getLabels_snd_all_log (cfg : MetricsConfig)
    (custRes : Except JSError MetricRecord) (hl failed : Bool) :
    ∀ e ∈ (getLabels cfg custRes hl failed).2, e = Event.logError := by
  cases hco : customizerOutcome cfg custRes with
  | ok labels =>
      rw [getLabels_eq_ok cfg custRes hl failed labels hco]
      simp
  | error e =>
      rw [getLabels_eq_error cfg custRes hl failed e hco]
      cases hl <;> simp

theorem observeLabels_append (a b : List Event) :
    observeLabels (a ++ b) = observeLabels a ++ observeLabels b :=
  List.filterMap_append a b _

theorem finishedLabels_append (a b : List Event) :
    finishedLabels (a ++ b) = finishedLabels a ++ finishedLabels b :=
  List.filterMap_append a b _

theorem observeLabels_getLabels_snd (cfg : MetricsConfig)
    (custRes : Except JSError MetricRecord) (hl failed : Bool) :
    observeLabels (getLabels cfg custRes hl failed).2 = [] := by
  cases hco : customizerOutcome cfg custRes with
  | ok labels =>
      rw [getLabels_eq_ok cfg custRes hl failed labels hco]
      rfl
  | error e =>
      rw [getLabels_eq_error cfg custRes hl failed e hco]
      cases hl <;> rfl

theorem finishedLabels_getLabels_snd (cfg : MetricsConfig)
    (custRes : Except JSError MetricRecord) (hl failed : Bool) :
    finishedLabels (getLabels cfg custRes hl failed).2 = [] := by
  cases hco : customizerOutcome cfg custRes with
  | ok labels =>
      rw [getLabels_eq_ok cfg custRes hl failed labels hco]
      rfl
  | error e =>
      rw [getLabels_eq_error cfg custRes hl failed e hco]
      cases hl <;> rfl

theorem metricsHandler_fst (cfg : MetricsConfig) (inp : MWInput) :
    (metricsHandler cfg inp).1 = inp.nextOutcome := by
  cases hno : inp.nextOutcome <;> simp [metricsHandler, hno]

theorem metricsHandler_events (cfg : MetricsConfig) (inp : MWInput) :
    (metricsHandler cfg inp).2
      = Event.processedInc :: Event.nextCall ::
          ((getLabels cfg inp.custResult inp.hasLogger
              (failedOf inp.nextOutcome)).2 ++
            [Event.observe (getLabels cfg inp.custResult inp.hasLogger
                (failedOf inp.nextOutcome)).1 inp.elapsed,
             Event.finishedInc (match inp.nextOutcome with
               | Except.ok _ => (getLabels cfg inp.custResult inp.hasLogger
                   (failedOf inp.nextOutcome)).1
               | Except.error _ => mergeRecords
                   (getLabels cfg inp.custResult inp.hasLogger
                     (failedOf inp.nextOutcome)).1
                   [("terminal", MetricValue.str
                       (toString (reachedMaxAttempts inp.job)))])]) := by
  cases hno : inp.nextOutcome <;> simp [metricsHandler, hno, failedOf]

theorem metricsHandler_observeLabels (cfg : MetricsConfig) (inp : MWInput) :
    observeLabels (metricsHandler cfg inp).2
      = [(getLabels cfg inp.custResult inp.hasLogger
          (failedOf inp.nextOutcome)).1] := by
  rw [metricsHandler_events]
  have hsnd := observeLabels_getLabels_snd cfg inp.custResult inp.hasLogger
    (failedOf inp.nextOutcome)
  simp only [observeLabels] at hsnd ⊢
  simp only [List.filterMap_cons, List.filterMap_append, hsnd]
  rfl

theorem metricsHandler_finishedLabels (cfg : MetricsConfig) (inp : MWInput) :
    finishedLabels (metricsHandler cfg inp).2
      = [match inp.nextOutcome with
         | Except.ok _ => (getLabels cfg inp.custResult inp.hasLogger
             (failedOf inp.nextOutcome)).1
         | Except.error _ => mergeRecords
             (getLabels cfg inp.custResult inp.hasLogger
               (failedOf inp.nextOutcome)).1
             [("terminal", MetricValue.str
                 (toString (reachedMaxAttempts inp.job)))]] := by
  rw [metricsHandler_events]
  have hsnd := finishedLabels_getLabels_snd cfg inp.custResult inp.hasLogger
    (failedOf inp.nextOutcome)
  simp only [finishedLabels] at hsnd ⊢
  simp only [List.filterMap_cons, List.filterMap_append, hsnd]
  rfl

theorem mem_of_finishedLabels (evs : List Event) (L : MetricRecord)
    (h : L ∈ finishedLabels evs) : Event.finishedInc L ∈ evs := by
  rw [finishedLabels] at h
  rcases List.mem_filterMap.mp h with ⟨e, he, hfe⟩
  cases e with
  | finishedInc l =>
      simp at hfe
      rw [← hfe]
      exact he
  | processedInc => simp at hfe
  | nextCall => simp at hfe
  | logError => simp at hfe
  | observe l t => simp at hfe

theorem mem_of_observeLabels (evs : List Event) (L : MetricRecord)
    (h : L ∈ observeLabels evs) : ∃ t, Event.observe L t ∈ evs := by
  rw [observeLabels] at h
  rcases List.mem_filterMap.mp h with ⟨e, he, hfe⟩
  cases e with
  | observe l t =>
      simp at hfe
      rw [← hfe]
      exact ⟨t, he⟩
  | processedInc => simp at hfe
  | nextCall => simp at hfe
  | logError => simp at hfe
  | finishedInc l => simp at hfe

/-! ### Claim theorems -/

/-- C1: the metrics middleware is a transparent wrapper.  One invocation of
the handler returns exactly the downstream outcome — re-raising any failure
value unchanged to its caller, whatever the customizer returned or raised
(only telemetry-computation failures are swallowed, inside `getLabels`) —
and the metric effects (one finished-counter increment and one histogram
observation) are recorded in every case, before the failure is re-raised in
the event order. -/
theorem metrics_transparent_wrapper (cfg : MetricsConfig) (inp : MWInput) :
    (metricsHandler cfg inp).1 = inp.nextOutcome ∧
    (∃ F, Event.finishedInc F ∈ (metricsHandler cfg inp).2) ∧
    (∃ L t, Event.observe L t ∈ (metricsHandler cfg inp).2) := by
  refine ⟨metricsHandler_fst cfg inp, ?_, ?_⟩
  · obtain ⟨L, hL⟩ : ∃ L, finishedLabels (metricsHandler cfg inp).2 = [L] :=
      ⟨_, metricsHandler_finishedLabels cfg inp⟩
    exact ⟨L, mem_of_finishedLabels _ _
      (by rw [hL]; exact List.mem_singleton_self L)⟩
  · obtain ⟨L, hL⟩ : ∃ L, observeLabels (metricsHandler cfg inp).2 = [L] :=
      ⟨_, metricsHandler_observeLabels cfg inp⟩
    obtain ⟨t, ht⟩ := mem_of_observeLabels _ _
      (by rw [hL]; exact List.mem_singleton_self L)
    exact ⟨L, t, ht⟩

/-- C2 (amended): when the downstream raises, `vaas_finished_total` is
incremented exactly once, with a `terminal` label equal to the stringified
value of `(attempts ?? 0) === (maxAttempts ?? -1)` (the code's sentinel
defaults, embedded as `reachedMaxAttempts`): with both fields set this is
`attempts === maxAttempts`; with both unset it is `false`; with only
`attempts` unset it equals `maxAttempts === 0`; with only `maxAttempts`
unset it equals `attempts === -1`.  When the downstream succeeds, it is
incremented exactly once and carries no `terminal` key provided `terminal`
is not among the configured custom label names. -/
theorem finished_counter_terminal_label (cfg : MetricsConfig)
    (inp : MWInput) :
    (∀ e, inp.nextOutcome = Except.error e →
      ∃ L, finishedLabels (metricsHandler cfg inp).2 = [L] ∧
        rlookup L "terminal"
          = some (MetricValue.str
              (toString (reachedMaxAttempts inp.job)))) ∧
    (inp.nextOutcome = Except.ok () →
      ∃ L, finishedLabels (metricsHandler cfg inp).2 = [L] ∧
        ("terminal" ∉ allowedOf cfg → rlookup L "terminal" = none)) := by
  constructor
  · intro e he
    have hfin := metricsHandler_finishedLabels cfg inp
    simp only [he] at hfin
    exact ⟨_, hfin, rlookup_merge_of_some _ _ _ _ rfl⟩
  · intro he
    have hfin := metricsHandler_finishedLabels cfg inp
    simp only [he] at hfin
    refine ⟨_, hfin, fun hnm => ?_⟩
    cases hco : customizerOutcome cfg inp.custResult with
    | ok labels =>
        rw [getLabels_fst_ok _ _ _ _ _ hco,
          rlookup_merge_of_none _ _ _ (rlookup_default_of_ne _ _ (by decide))]
        exact rlookup_validate_of_not_mem _ _ _ hnm
    | error e2 =>
        rw [getLabels_fst_error _ _ _ _ _ hco]
        exact rlookup_default_of_ne _ _ (by decide)

/-- C2 counterexample: with `attempts` unset and `maxAttempts = 0`, a
failed attempt records `terminal: "true"` — the code compares
`(attempts ?? 0) === (maxAttempts ?? -1)`, i.e. `0 === 0` — whereas the
claim mandates `terminal` stringify to `false` whenever either field is
unset. -/
theorem finished_counter_terminal_label_counterexample :
    (finishedLabels (metricsHandler ⟨none⟩
        ⟨Except.error (JSError.tag 0), Except.ok [], some ⟨none, some 0⟩,
          false, 0⟩).2).map (fun L => rlookup L "terminal")
      = [some (MetricValue.str "true")] ∧
    some (MetricValue.str "true") ≠ some (MetricValue.str "false") :=
  ⟨rfl, by decide⟩

/-- C2 witness: a terminal failure (`attempts = maxAttempts = 3`) records
`terminal: "true"`; a non-terminal failure (`attempts = 1`,
`maxAttempts = 3`) records `terminal: "false"`; a success records no
`terminal` key. -/
theorem finished_counter_terminal_label_witness :
    (∃ L, finishedLabels (metricsHandler ⟨none⟩
        ⟨Except.error (JSError.tag 0), Except.ok [], some ⟨some 3, some 3⟩,
          false, 0⟩).2 = [L] ∧
      rlookup L "terminal" = some (MetricValue.str "true")) ∧
    (∃ L, finishedLabels (metricsHandler ⟨none⟩
        ⟨Except.error (JSError.tag 1), Except.ok [], some ⟨some 1, some 3⟩,
          false, 0⟩).2 = [L] ∧
      rlookup L "terminal" = some (MetricValue.str "false")) ∧
    (∃ L, finishedLabels (metricsHandler ⟨none⟩
        ⟨Except.ok (), Except.ok [], some ⟨some 1, some 3⟩, false, 0⟩).2
        = [L] ∧
      ("terminal" ∉ allowedOf ⟨none⟩ → rlookup L "terminal" = none)) :=
  ⟨(finished_counter_terminal_label _ _).1 (JSError.tag 0) rfl,
   (finished_counter_terminal_label _ _).1 (JSError.tag 1) rfl,
   (finished_counter_terminal_label _ _).2 rfl⟩

/-- C3: when label options are configured and the customizer raises (its
promise rejects), the job's outcome is unaffected, the error is logged and
never propagated, and both the histogram observation and the finished
increment use only the default `{status}` label set (plus the engine's own
`terminal` label on the failure path). -/
theorem customizer_failure_isolated (cfg : MetricsConfig) (inp : MWInput)
    (lc : LabelCfg) (ce : JSError) (hcfg : cfg.labels = some lc)
    (hcust : inp.custResult = Except.error ce) (hlog : inp.hasLogger = true) :
    (metricsHandler cfg inp).1 = inp.nextOutcome ∧
    Event.logError ∈ (metricsHandler cfg inp).2 ∧
    observeLabels (metricsHandler cfg inp).2
      = [defaultLabels (failedOf inp.nextOutcome)] ∧
    finishedLabels (metricsHandler cfg inp).2
      = [match inp.nextOutcome with
         | Except.ok _ => defaultLabels false
         | Except.error _ => mergeRecords (defaultLabels true)
             [("terminal", MetricValue.str
                 (toString (reachedMaxAttempts inp.job)))]] := by
  have hco : customizerOutcome cfg inp.custResult = Except.error ce := by
    simp only [customizerOutcome, hcfg, hcust]
  refine ⟨metricsHandler_fst cfg inp, ?_, ?_, ?_⟩
  · rw [metricsHandler_events, getLabels_eq_error _ _ _ _ _ hco, hlog]
    simp
  · rw [metricsHandler_observeLabels, getLabels_fst_error _ _ _ _ _ hco]
  · have hfin := metricsHandler_finishedLabels cfg inp
    rw [getLabels_fst_error _ _ _ _ _ hco] at hfin
    cases hno : inp.nextOutcome with
    | ok u =>
        cases u
        simp only [hno] at hfin
        simpa [failedOf] using hfin
    | error e =>
        simp only [hno] at hfin
        simpa [failedOf] using hfin

/-- C3 witness: configured labels `["a"]`, customizer rejects, downstream
succeeds — outcome preserved, error logged, default labels recorded. -/
theorem customizer_failure_isolated_witness :
    (metricsHandler ⟨some ⟨["a"]⟩⟩
        ⟨Except.ok (), Except.error (JSError.tag 7), none, true, 2⟩).1
      = Except.ok () ∧
    Event.logError ∈ (metricsHandler ⟨some ⟨["a"]⟩⟩
        ⟨Except.ok (), Except.error (JSError.tag 7), none, true, 2⟩).2 ∧
    observeLabels (metricsHandler ⟨some ⟨["a"]⟩⟩
        ⟨Except.ok (), Except.error (JSError.tag 7), none, true, 2⟩).2
      = [defaultLabels false] ∧
    finishedLabels (metricsHandler ⟨some ⟨["a"]⟩⟩
        ⟨Except.ok (), Except.error (JSError.tag 7), none, true, 2⟩).2
      = [defaultLabels false] :=
  customizer_failure_isolated _ _ ⟨["a"]⟩ (JSError.tag 7) rfl rfl rfl

/-- C4: for every configured allow-list and every customizer result, the
computed labels contain only allow-listed keys plus the engine-derived
`status` key, whose value is `succeeded`/`failed` as derived by the engine
(overriding any customizer-supplied `status`); all other customizer keys
are dropped. -/
theorem labels_allowlist_status_override (cfg : MetricsConfig)
    (inp : MWInput) (lc : LabelCfg) (r : MetricRecord)
    (hcfg : cfg.labels = some lc) (hcust : inp.custResult = Except.ok r) :
    ∃ L, observeLabels (metricsHandler cfg inp).2 = [L] ∧
      rlookup L "status"
        = some (MetricValue.str (statusStr (failedOf inp.nextOutcome))) ∧
      ∀ k, k ≠ "status" → k ∉ lc.labelNames → rlookup L k = none := by
  have hco : customizerOutcome cfg inp.custResult = Except.ok r := by
    simp only [customizerOutcome, hcfg, hcust]
  have hall : allowedOf cfg = lc.labelNames := by
    simp [allowedOf, hcfg]
  refine ⟨_, metricsHandler_observeLabels cfg inp,
    getLabels_status _ _ _ _, ?_⟩
  intro k hks hkm
  rw [getLabels_fst_ok _ _ _ _ _ hco,
    rlookup_merge_of_none _ _ _ (rlookup_default_of_ne _ _ hks), hall]
  exact rlookup_validate_of_not_mem _ _ _ hkm

/-- C4 witness: `labelNames = ["a"]`, customizer returns
`{a: 1, b: 2, status: "bogus"}` — only `a` and the engine's `status` can
appear; `b` is dropped and the customizer's `status` is overridden. -/
theorem labels_allowlist_status_override_witness :
    ∃ L, observeLabels (metricsHandler ⟨some ⟨["a"]⟩⟩
        ⟨Except.ok (), Except.ok [("a", MetricValue.num 1),
          ("b", MetricValue.num 2), ("status", MetricValue.str "bogus")],
          none, false, 0⟩).2 = [L] ∧
      rlookup L "status" = some (MetricValue.str (statusStr false)) ∧
      ∀ k, k ≠ "status" → k ∉ ["a"] → rlookup L k = none :=
  labels_allowlist_status_override _ _ ⟨["a"]⟩ _ rfl rfl

/-- C5: every invocation records exactly one duration-histogram observation,
labeled with `status = "succeeded"` when the downstream returned normally
and `status = "failed"` when it raised; by the event order the observation
precedes the finished increment and the re-raise on the failure path. -/
theorem duration_observed_once_with_status (cfg : MetricsConfig)
    (inp : MWInput) :
    ∃ L, observeLabels (metricsHandler cfg inp).2 = [L] ∧
      rlookup L "status"
        = some (MetricValue.str (statusStr (failedOf inp.nextOutcome))) :=
  ⟨_, metricsHandler_observeLabels cfg inp,
    getLabels_status cfg inp.custResult inp.hasLogger
      (failedOf inp.nextOutcome)⟩

/-- C6: every invocation increments the processed counter exactly once, and
that increment is the first effect, before `next()` is invoked. -/
theorem processed_inc_once_before_next (cfg : MetricsConfig)
    (inp : MWInput) :
    ∃ rest, (metricsHandler cfg inp).2
        = Event.processedInc :: Event.nextCall :: rest ∧
      Event.processedInc ∉ rest := by
  refine ⟨_, metricsHandler_events cfg inp, ?_⟩
  intro hmem
  rcases List.mem_append.mp hmem with h1 | h2
  · have := getLabels_snd_all_log cfg inp.custResult inp.hasLogger
      (failedOf inp.nextOutcome) _ h1
    simp at this
  · simp at h2

/-- C7 (spec-modelled): an action whose chain id has no resolvable toolbox
fails with a resolution error, the resolution error is distinct from every
action-function error, and the action's function body is never invoked (the
result does not depend on the function). -/
theorem resolution_error_skips_action {T W E : Type}
    (resolveToolBox : Nat → Option W) (act : Action T W E)
    (h : resolveToolBox act.chainId = none) :
    execute resolveToolBox act
      = Except.error (ExecError.resolution act.chainId) ∧
    (∀ e : E, Except.error (ExecError.resolution act.chainId)
        ≠ (Except.error (ExecError.action e) : Except (ExecError E) T)) ∧
    (∀ g : W → Nat → Except E T,
      execute resolveToolBox { act with f := g }
        = execute resolveToolBox act) := by
  refine ⟨?_, ?_, ?_⟩
  · simp [execute, h]
  · intro e heq
    injection heq with h2
    exact ExecError.noConfusion h2
  · intro g
    simp [execute, h]

/-- C7 witness: chain id 3 with no toolbox available. -/
theorem resolution_error_skips_action_witness :
    execute (fun _ : Nat => (none : Option Unit))
        ({ chainId := 3, f := fun _ _ => Except.ok 7 } : Action Nat Unit Unit)
      = Except.error (ExecError.resolution 3) ∧
    (∀ e : Unit, Except.error (ExecError.resolution 3)
        ≠ (Except.error (ExecError.action e) : Except (ExecError Unit) Nat)) ∧
    (∀ g : Unit → Nat → Except Unit Nat,
      execute (fun _ : Nat => (none : Option Unit))
          ({ chainId := 3, f := g } : Action Nat Unit Unit)
        = execute (fun _ : Nat => (none : Option Unit))
            ({ chainId := 3, f := fun _ _ => Except.ok 7 } :
              Action Nat Unit Unit)) :=
  resolution_error_skips_action (fun _ => none)
    { chainId := 3, f := fun _ _ => Except.ok 7 } rfl

/-- C8 (spec-modelled): with a resolvable toolbox, `execute` returns
exactly the action function's value on success and propagates exactly the
action function's error (carried unchanged under the action-error tag) on
failure, invoking the function once with the toolbox and the action's chain
id, with no retry. -/
theorem execute_transparent {T W E : Type} (resolveToolBox : Nat → Option W)
    (act : Action T W E) (tb : W) (h : resolveToolBox act.chainId = some tb) :
    execute resolveToolBox act
      = (act.f tb act.chainId).mapError ExecError.action ∧
    (∀ v, act.f tb act.chainId = Except.ok v →
      execute resolveToolBox act = Except.ok v) ∧
    (∀ e, act.f tb act.chainId = Except.error e →
      execute resolveToolBox act = Except.error (ExecError.action e)) := by
  have hex : execute resolveToolBox act
      = (act.f tb act.chainId).mapError ExecError.action := by
    simp [execute, h]
  refine ⟨hex, fun v hv => ?_, fun e he2 => ?_⟩
  · rw [hex, hv]
    rfl
  · rw [hex, he2]
    rfl

/-- C8 witness: a working toolbox on chain 2; the action returns 7. -/
theorem execute_transparent_witness :
    execute (fun _ : Nat => some ())
        ({ chainId := 2, f := fun _ _ => Except.ok 7 } : Action Nat Unit Unit)
      = (Except.ok 7 : Except Unit Nat).mapError ExecError.action ∧
    (∀ v, (Except.ok 7 : Except Unit Nat) = Except.ok v →
      execute (fun _ : Nat => some ())
          ({ chainId := 2, f := fun _ _ => Except.ok 7 } :
            Action Nat Unit Unit)
        = Except.ok v) ∧
    (∀ e, (Except.ok 7 : Except Unit Nat) = Except.error e →
      execute (fun _ : Nat => some ())
          ({ chainId := 2, f := fun _ _ => Except.ok 7 } :
            Action Nat Unit Unit)
        = Except.error (ExecError.action e)) :=
  execute_transparent (fun _ => some ())
    { chainId := 2, f := fun _ _ => Except.ok 7 } () rfl

/-- C9: an allow-listed customizer key whose value is falsy (`0`, `""`,
`false`, `null`) is silently dropped from the recorded labels — and so is
any other falsy-valued key. -/
theorem falsy_allowlisted_labels_dropped (cfg : MetricsConfig)
    (inp : MWInput) (lc : LabelCfg) (r : MetricRecord) (k : String)
    (v : MetricValue) (hcfg : cfg.labels = some lc)
    (hcust : inp.custResult = Except.ok r) (hkv : rlookup r k = some v)
    (hfalsy : truthy v = false) (hks : k ≠ "status") :
    ∃ L, observeLabels (metricsHandler cfg inp).2 = [L] ∧
      rlookup L k = none := by
  have hco : customizerOutcome cfg inp.custResult = Except.ok r := by
    simp only [customizerOutcome, hcfg, hcust]
  refine ⟨_, metricsHandler_observeLabels cfg inp, ?_⟩
  rw [getLabels_fst_ok _ _ _ _ _ hco,
    rlookup_merge_of_none _ _ _ (rlookup_default_of_ne _ _ hks)]
  exact rlookup_validate_of_falsy _ _ _ _ hkv hfalsy

/-- C9 witness: allow-list `["a"]`, customizer returns `{a: 0}` — the key
`a` does not appear on the recorded labels. -/
theorem falsy_allowlisted_labels_dropped_witness :
    ∃ L, observeLabels (metricsHandler ⟨some ⟨["a"]⟩⟩
        ⟨Except.ok (), Except.ok [("a", MetricValue.num 0)], none, false,
          0⟩).2 = [L] ∧
      rlookup L "a" = none :=
  falsy_allowlisted_labels_dropped _ _ ⟨["a"]⟩ _ "a" (MetricValue.num 0)
    rfl rfl rfl rfl (by decide)

/-- C10: for every configuration, one invocation calls `next()` exactly
once, unconditionally; the processed-counter increment is the only effect
preceding it, and all label computation (including the customizer-failure
log), the histogram observation and the finished increment come after
`next()` has settled. -/
theorem next_called_once_recording_after (cfg : MetricsConfig)
    (inp : MWInput) :
    ∃ rest, (metricsHandler cfg inp).2
        = Event.processedInc :: Event.nextCall :: rest ∧
      Event.nextCall ∉ rest ∧ Event.processedInc ∉ rest ∧
      ∃ L F, rest = (getLabels cfg inp.custResult inp.hasLogger
          (failedOf inp.nextOutcome)).2
            ++ [Event.observe L inp.elapsed, Event.finishedInc F] := by
  refine ⟨_, metricsHandler_events cfg inp, ?_, ?_, ⟨_, _, rfl⟩⟩
  · intro hmem
    rcases List.mem_append.mp hmem with h1 | h2
    · have := getLabels_snd_all_log cfg inp.custResult inp.hasLogger
        (failedOf inp.nextOutcome) _ h1
      simp at this
    · simp at h2
  · intro hmem
    rcases List.mem_append.mp hmem with h1 | h2
    · have := getLabels_snd_all_log cfg inp.custResult inp.hasLogger
        (failedOf inp.nextOutcome) _ h1
      simp at this
    · simp at h2

end RelayerEngine
